import Mathlib

/-!
Verification of the anomaly-detection engine of `market-whisper-anomaly-detector`.

The engine (src/utils/anomalyDetection.ts, src/utils/stockData.ts, and the
Pearson helper of src/components/AnomalyList.tsx) is shallowly embedded here.
Modelling conventions:

* JavaScript numbers are modelled as exact real numbers (`ℝ`); `Math.sqrt` is
  `Real.sqrt`, `Math.floor` is `Int.floor`, `Math.round x` is `⌊x + 1/2⌋`.
  Division by zero in `ℝ` is total (`x / 0 = 0`), an idealisation of the
  IEEE-754 NaN/Infinity behaviour of the source.
* `Math.random()` is modelled as an explicit oracle `rand : ℕ → ℝ`, consumed at
  successive indices in the order the source calls `Math.random()`.
* `uuidv4()` produces an opaque identifier that never influences the engine's
  logic; it is modelled as the constant string "".
* `Number.prototype.toFixed` renders a float as decimal text inside description
  strings; decimal rendering of a real is uninterpreted here and modelled by a
  constant placeholder (`toFixed`).  No claim depends on the rendered digits.
* Index-based `for` loops over arrays are modelled as `List.range`/`List.getD`
  traversals; `arr.slice(a, b)` is `(l.drop a).take (b - a)`.
-/

/-- One OHLCV bar (TS interface `StockData`). `adjClose` is optional in the
source but never read by the engine; it is kept as a plain field. -/
structure StockData where
  symbol : String
  date : String
  «open» : ℝ
  high : ℝ
  low : ℝ
  close : ℝ
  volume : ℝ
  adjClose : ℝ

/-- Default bar used to totalise out-of-range array indexing. -/
def defaultBar : StockData := ⟨"", "", 0, 0, 0, 0, 0, 0⟩

/-- The TS union `'price' | 'volume'`. -/
inductive AnomalyType where
  | price
  | volume
deriving DecidableEq, Repr

/-- The TS union `'low' | 'medium' | 'high'`. -/
inductive Severity where
  | low
  | medium
  | high
deriving DecidableEq, Repr

/-- TS interface `AnomalyData`. -/
structure AnomalyData where
  id : String
  date : String
  value : ℝ
  score : ℝ
  type : AnomalyType
  severity : Severity
  description : String

/-- TS interface `StockMetrics`. -/
structure StockMetrics where
  symbol : String
  currentPrice : ℝ
  dailyChange : ℝ
  dailyChangePercent : ℝ
  averageVolume : ℝ
  anomalyCount : ℝ
  volatility : ℝ
  rsi : ℝ

structure ZScoreConfig where
  enabled : Bool
  threshold : ℝ
  weight : ℝ

structure BollingerConfig where
  enabled : Bool
  period : ℕ
  stdDev : ℝ
  weight : ℝ

structure MACDConfig where
  enabled : Bool
  fastPeriod : ℕ
  slowPeriod : ℕ
  signalPeriod : ℕ
  weight : ℝ

structure IsolationConfig where
  enabled : Bool
  contamination : ℝ
  weight : ℝ

structure PatternConfig where
  enabled : Bool
  weight : ℝ

/-- TS interface `AnomalyDetectionConfig`. -/
structure AnomalyDetectionConfig where
  zscore : ZScoreConfig
  bollingerBands : BollingerConfig
  macd : MACDConfig
  isolationForest : IsolationConfig
  patternDetection : PatternConfig

/-- `defaultConfig` of anomalyDetection.ts. -/
noncomputable def defaultConfig : AnomalyDetectionConfig :=
  { zscore := ⟨true, 2.5, 0.25⟩
    bollingerBands := ⟨true, 20, 2, 0.25⟩
    macd := ⟨true, 12, 26, 9, 0.25⟩
    isolationForest := ⟨true, 0.1, 0.15⟩
    patternDetection := ⟨true, 0.1⟩ }

/-- Placeholder for `Number.prototype.toFixed`: decimal rendering of a real
number is uninterpreted in this embedding.  No claim depends on it. -/
def toFixed (_x : ℝ) (_digits : ℕ) : String := "#"

/-- `calculateMean` of anomalyDetection.ts: `sum / length` (0/0 = 0 for `[]`). -/
noncomputable def calculateMean (data : List ℝ) : ℝ :=
  data.sum / data.length

/-- `calculateStdDev` of anomalyDetection.ts: population standard deviation
about a supplied mean. -/
noncomputable def calculateStdDev (data : List ℝ) (mean : ℝ) : ℝ :=
  Real.sqrt (calculateMean (data.map fun val => (val - mean) ^ 2))

/-- `calculateEMA` of anomalyDetection.ts: seed `data[0]`, recurrence
`ema[i] = data[i] * m + ema[i-1] * (1 - m)` with `m = 2 / (period + 1)`.
The source applied to `[]` would yield `[NaN]`; it is only ever called on
non-empty input, and the embedding returns `[]` there. -/
noncomputable def calculateEMA (data : List ℝ) (period : ℕ) : List ℝ :=
  match data with
  | [] => []
  | x :: xs =>
    xs.scanl
      (fun prev d => d * (2 / ((period : ℝ) + 1)) + prev * (1 - 2 / ((period : ℝ) + 1))) x

/-- `calculateIsolationScore` of anomalyDetection.ts: mean Euclidean distance
from `point` to every vector of `dataset` (always called with equal-length
feature vectors, so the index-wise `reduce` is a `zipWith`). -/
noncomputable def calculateIsolationScore (point : List ℝ) (dataset : List (List ℝ)) : ℝ :=
  calculateMean (dataset.map fun other =>
    Real.sqrt ((point.zipWith (fun val o => (val - o) ^ 2) other).sum))

/-- `getPercentile` of anomalyDetection.ts: sort ascending, take the element at
index `⌊p/100 * n⌋` (out-of-range indexing totalised to 0, as for every other
array access in this embedding). -/
noncomputable def getPercentile (data : List ℝ) (percentile : ℝ) : ℝ :=
  let sorted := data.insertionSort (· ≤ ·)
  sorted.getD (⌊percentile / 100 * (data.length : ℝ)⌋).toNat 0

/-- `Math.max(...l)` for the non-empty lists it is applied to. -/
def maxList : List ℝ → ℝ
  | [] => 0
  | a :: rest => rest.foldl max a

/-- `detectZScoreAnomalies` of anomalyDetection.ts: whole-series z-scores of
close and volume; a candidate per bar and channel when the absolute z-score
exceeds the threshold. -/
noncomputable def detectZScoreAnomalies (stockData : List StockData)
    (config : ZScoreConfig) : List AnomalyData :=
  let prices := stockData.map (·.close)
  let volumes := stockData.map (·.volume)
  let priceMean := calculateMean prices
  let priceStdDev := calculateStdDev prices priceMean
  let volumeMean := calculateMean volumes
  let volumeStdDev := calculateStdDev volumes volumeMean
  stockData.flatMap fun data =>
    let priceZScore := |(data.close - priceMean) / priceStdDev|
    let volumeZScore := |(data.volume - volumeMean) / volumeStdDev|
    (if priceZScore > config.threshold then
      [{ id := "", date := data.date, value := data.close,
         score := priceZScore * config.weight, type := .price,
         severity := if priceZScore > 3 then .high
           else if priceZScore > 2.5 then .medium else .low,
         description := "Z-Score price outlier: " ++ toFixed priceZScore 2 ++
           " standard deviations from mean" }]
     else []) ++
    (if volumeZScore > config.threshold then
      [{ id := "", date := data.date, value := data.volume,
         score := volumeZScore * config.weight, type := .volume,
         severity := if volumeZScore > 3 then .high
           else if volumeZScore > 2.5 then .medium else .low,
         description := "Z-Score volume outlier: " ++ toFixed volumeZScore 2 ++
           " standard deviations from mean" }]
     else [])

/-- `detectBollingerBandsAnomalies` of anomalyDetection.ts: for each index
`i ≥ period - 1`, a trailing window SMA ± k·stddev; a candidate when the close
breaches a band. -/
noncomputable def detectBollingerBandsAnomalies (stockData : List StockData)
    (config : BollingerConfig) : List AnomalyData :=
  let prices := stockData.map (·.close)
  (List.range stockData.length).flatMap fun i =>
    if config.period ≤ i + 1 then
      let window := (prices.drop (i + 1 - config.period)).take config.period
      let sma := calculateMean window
      let stdDev := calculateStdDev window sma
      let upperBand := sma + config.stdDev * stdDev
      let lowerBand := sma - config.stdDev * stdDev
      let currentPrice := (stockData.getD i defaultBar).close
      if currentPrice > upperBand ∨ currentPrice < lowerBand then
        let deviation := if currentPrice > upperBand then
            (currentPrice - upperBand) / upperBand
          else (lowerBand - currentPrice) / lowerBand
        [{ id := "", date := (stockData.getD i defaultBar).date,
           value := currentPrice, score := deviation * config.weight * 10,
           type := .price,
           severity := if deviation > 0.05 then .high
             else if deviation > 0.02 then .medium else .low,
           description := "Bollinger Bands breach: Price " ++
             (if currentPrice > upperBand then "above upper" else "below lower") ++
             " band by " ++ toFixed (deviation * 100) 2 ++ "%" }]
      else []
    else []

/-- `detectMACDAnomalies` of anomalyDetection.ts.  The source's
`.filter(val => !isNaN(val))` on the MACD line is the identity in exact real
arithmetic and is omitted. -/
noncomputable def detectMACDAnomalies (stockData : List StockData)
    (config : MACDConfig) : List AnomalyData :=
  let prices := stockData.map (·.close)
  if prices.length < config.slowPeriod + config.signalPeriod then []
  else
    let fastEMA := calculateEMA prices config.fastPeriod
    let slowEMA := calculateEMA prices config.slowPeriod
    let macdLine := fastEMA.zipWith (fun fast slow => fast - slow) slowEMA
    let signalLine := calculateEMA macdLine config.signalPeriod
    (List.range (min macdLine.length signalLine.length)).flatMap fun i =>
      if config.signalPeriod ≤ i then
        let histogram := macdLine.getD i 0 - signalLine.getD i 0
        let prevHistogram := if 0 < i then
            macdLine.getD (i - 1) 0 - signalLine.getD (i - 1) 0
          else 0
        if |histogram| > |prevHistogram| * 2 ∧ |histogram| > 0.5 then
          let dataIndex := i + config.slowPeriod - 1
          if dataIndex < stockData.length then
            [{ id := "", date := (stockData.getD dataIndex defaultBar).date,
               value := (stockData.getD dataIndex defaultBar).close,
               score := |histogram| * config.weight * 5, type := .price,
               severity := if |histogram| > 2 then .high
                 else if |histogram| > 1 then .medium else .low,
               description := "MACD divergence: " ++
                 (if histogram > 0 then "Bullish" else "Bearish") ++
                 " signal with magnitude " ++ toFixed |histogram| 3 }]
          else []
        else []
      else []

/-- `detectIsolationForestAnomalies` of anomalyDetection.ts: per-bar feature
vectors, mean-distance isolation scores, and a percentile threshold. -/
noncomputable def detectIsolationForestAnomalies (stockData : List StockData)
    (config : IsolationConfig) : List AnomalyData :=
  let features := stockData.map fun d =>
    [d.close, d.volume, d.high - d.low, (d.close - d.«open») / d.«open», d.volume * d.close]
  let isolationScores := features.map fun feature =>
    calculateIsolationScore feature features
  let threshold := getPercentile isolationScores ((1 - config.contamination) * 100)
  (stockData.zip isolationScores).flatMap fun (data, score) =>
    if score > threshold then
      [{ id := "", date := data.date, value := data.close,
         score := score * config.weight, type := .price,
         severity := if score > threshold * 1.5 then .high
           else if score > threshold * 1.2 then .medium else .low,
         description := "Isolation Forest anomaly: Unusual combination of price, volume, and volatility patterns (score: " ++
           toFixed score 3 ++ ")" }]
    else []

structure PumpDumpResult where
  detected : Bool
  confidence : ℝ
  type : String

/-- `detectPumpAndDump` of anomalyDetection.ts.  `Math.max(0, c - 3)` is the
truncated natural subtraction `c - 3`. -/
noncomputable def detectPumpAndDump (stockData : List StockData)
    (centerIndex : ℕ) : PumpDumpResult :=
  let window := 3
  let start := centerIndex - window
  let endIdx := min (stockData.length - 1) (centerIndex + window)
  let slice := (stockData.drop start).take (endIdx + 1 - start)
  let prices := slice.map (·.close)
  let volumes := slice.map (·.volume)
  let prePumpPrice := prices.getD 0 0
  let peakPrice := maxList prices
  let postDumpPrice := prices.getD (prices.length - 1) 0
  let peakVolume := maxList volumes
  let avgVolume := calculateMean volumes.dropLast
  let pumpMagnitude := (peakPrice - prePumpPrice) / prePumpPrice
  let dumpMagnitude := (peakPrice - postDumpPrice) / peakPrice
  let volumeSpike := peakVolume / avgVolume
  if pumpMagnitude > 0.1 ∧ dumpMagnitude > 0.08 ∧ volumeSpike > 2 then
    ⟨true, min 0.9 ((pumpMagnitude + dumpMagnitude) * volumeSpike * 0.1), "pump and dump"⟩
  else ⟨false, 0, ""⟩

/-- `detectTradingPatternAnomalies` of anomalyDetection.ts: pump-and-dump scan
over centre indices `3 ≤ i < length - 2`. -/
noncomputable def detectTradingPatternAnomalies (stockData : List StockData)
    (config : PatternConfig) : List AnomalyData :=
  (List.range stockData.length).flatMap fun i =>
    if 3 ≤ i ∧ i + 2 < stockData.length then
      let pattern := detectPumpAndDump stockData i
      if pattern.detected then
        [{ id := "", date := (stockData.getD i defaultBar).date,
           value := (stockData.getD i defaultBar).close,
           score := pattern.confidence * config.weight * 10, type := .price,
           severity := if pattern.confidence > 0.8 then .high
             else if pattern.confidence > 0.6 then .medium else .low,
           description := "Potential " ++ pattern.type ++
             " pattern detected with " ++ toFixed (pattern.confidence * 100) 1 ++
             "% confidence" }]
      else []
    else []

/-- Loop body of `detectSimpleAnomalies` for one `(prevDay, currentDay)`
pair. -/
noncomputable def simplePair (prevDay currentDay : StockData) : List AnomalyData :=
  let priceChange := |(currentDay.close - prevDay.close) / prevDay.close|
  let volumeChange := if prevDay.volume > 0 then
      |currentDay.volume / prevDay.volume - 1|
    else 0
  (if priceChange > 0.05 then
    [{ id := "", date := currentDay.date, value := currentDay.close,
       score := priceChange * 20, type := .price,
       severity := if priceChange > 0.1 then .high
         else if priceChange > 0.075 then .medium else .low,
       description := "Significant price movement: " ++
         toFixed (priceChange * 100) 2 ++ "% change" }]
   else []) ++
  (if volumeChange > 1 then
    [{ id := "", date := currentDay.date, value := currentDay.volume,
       score := volumeChange * 5, type := .volume,
       severity := if volumeChange > 3 then .high
         else if volumeChange > 2 then .medium else .low,
       description := "Unusual volume activity: " ++
         toFixed (volumeChange * 100) 0 ++ "% of previous day" }]
   else [])

/-- `detectSimpleAnomalies` of anomalyDetection.ts: day-over-day fallback for
series shorter than 20 bars (`for (let i = 1; i < length; i++)` over
`stockData[i-1]`, `stockData[i]`). -/
noncomputable def detectSimpleAnomalies (stockData : List StockData) : List AnomalyData :=
  (List.range stockData.length).flatMap fun i =>
    if i = 0 then []
    else simplePair (stockData.getD (i - 1) defaultBar) (stockData.getD i defaultBar)

/-- The grouping key of `applyWeightedScoring`: the source keys its `Map` by the
string `date + "-" + type`; since the two `type` literals have different
lengths, that string determines and is determined by the pair `(date, type)`,
which is used directly here. -/
def key (a : AnomalyData) : String × AnomalyType := (a.date, a.type)

/-- First-occurrence deduplication: the iteration order of a JS `Map` is the
insertion order of its keys. -/
def dedupFirst {α : Type} [DecidableEq α] : List α → List α
  | [] => []
  | a :: l => a :: (dedupFirst l).filter (fun b => b ≠ a)

/-- The keys of the groups of `applyWeightedScoring`, in `Map` insertion
order. -/
def groupKeys (anomalies : List AnomalyData) : List (String × AnomalyType) :=
  dedupFirst (anomalies.map key)

/-- The group of candidates sharing one key, in push order. -/
def groupFor (anomalies : List AnomalyData) (k : String × AnomalyType) :
    List AnomalyData :=
  anomalies.filter (fun a => key a = k)

/-- One step of the severity `reduce` of `applyWeightedScoring`, verbatim:
`(max, a) => a.severity === 'high' || max === 'high' ? 'high' : ...`. -/
def severityStep (mx s : Severity) : Severity :=
  if s = .high ∨ mx = .high then .high
  else if s = .medium ∨ mx = .medium then .medium
  else .low

/-- The severity `reduce` of `applyWeightedScoring`. -/
def maxSeverity (group : List AnomalyData) : Severity :=
  group.foldl (fun mx a => severityStep mx a.severity) .low

/-- One group of `applyWeightedScoring`: a singleton group passes through, a
larger group is merged via `{...group[0], score, severity, description}`. -/
noncomputable def mergeGroup : List AnomalyData → List AnomalyData
  | [] => []
  | [a] => [a]
  | a :: b :: rest =>
    let group := a :: b :: rest
    [{ a with
        score := group.foldl (fun sum x => sum + x.score) 0,
        severity := maxSeverity group,
        description := "Multiple indicators: " ++
          String.intercalate "; " (group.map (·.description)) }]

/-- The merged (pre-sort) list of `applyWeightedScoring`. -/
noncomputable def mergedAnomalies (anomalies : List AnomalyData) : List AnomalyData :=
  (groupKeys anomalies).flatMap fun k => mergeGroup (groupFor anomalies k)

/-- The order of `.sort((a, b) => b.score - a.score)`: descending score. -/
def scoreGE (a b : AnomalyData) : Prop := b.score ≤ a.score

noncomputable instance : DecidableRel scoreGE := fun a b => Real.decidableLE b.score a.score

instance : IsTotal AnomalyData scoreGE := ⟨fun a b => le_total b.score a.score⟩

instance : IsTrans AnomalyData scoreGE := ⟨fun _ _ _ h1 h2 => le_trans h2 h1⟩

/-- `applyWeightedScoring` of anomalyDetection.ts.  The `config` parameter is
unused in the source body as well.  `.sort((a, b) => b.score - a.score)` sorts
by descending score. -/
noncomputable def applyWeightedScoring (anomalies : List AnomalyData)
    (_config : AnomalyDetectionConfig) : List AnomalyData :=
  (mergedAnomalies anomalies).insertionSort scoreGE

/-- `detectAnomalies` of anomalyDetection.ts. -/
noncomputable def detectAnomalies (stockData : List StockData)
    (config : AnomalyDetectionConfig) : List AnomalyData :=
  if stockData.isEmpty then []
  else
    let anomalies :=
      if 20 ≤ stockData.length then
        (if config.zscore.enabled then
          detectZScoreAnomalies stockData config.zscore else []) ++
        (if config.bollingerBands.enabled then
          detectBollingerBandsAnomalies stockData config.bollingerBands else []) ++
        (if config.macd.enabled then
          detectMACDAnomalies stockData config.macd else []) ++
        (if config.isolationForest.enabled then
          detectIsolationForestAnomalies stockData config.isolationForest else []) ++
        (if config.patternDetection.enabled then
          detectTradingPatternAnomalies stockData config.patternDetection else [])
      else detectSimpleAnomalies stockData
    applyWeightedScoring anomalies config

/-- The day-over-day close changes of `calculateRSI`'s
`for (let i = 1; i < data.length; i++)` loop. -/
noncomputable def rsiChanges (data : List StockData) : List ℝ :=
  (List.range data.length).filterMap fun i =>
    if i = 0 then none
    else some ((data.getD i defaultBar).close - (data.getD (i - 1) defaultBar).close)

/-- Accumulated `gains` of `calculateRSI` (`if (change > 0) gains += change`). -/
noncomputable def rsiGains (data : List StockData) : ℝ :=
  ((rsiChanges data).map fun change => if change > 0 then change else 0).sum

/-- Accumulated `losses` of `calculateRSI` (`else losses -= change`). -/
noncomputable def rsiLosses (data : List StockData) : ℝ :=
  ((rsiChanges data).map fun change => if change > 0 then 0 else -change).sum

/-- `calculateRSI` of stockData.ts.  `rand idx` is the single `Math.random()`
call of the one-bar branch; `avgGain`/`avgLoss` divide by `data.length - 1`,
`RS = avgGain / avgLoss`, `RSI = 100 - 100 / (1 + RS)`, rounded to two
decimals (`Math.round(rsi * 100) / 100`). -/
noncomputable def calculateRSI (data : List StockData) (rand : ℕ → ℝ)
    (idx : ℕ) : ℝ :=
  if data.length < 2 then
    if data.length = 1 then
      let day := data.getD 0 defaultBar
      if day.close > day.«open» then 60 + rand idx * 20
      else 20 + rand idx * 20
    else 50
  else
    if rsiLosses data / ((data.length : ℝ) - 1) = 0 then 100
    else
      (⌊(100 - 100 / (1 + (rsiGains data / ((data.length : ℝ) - 1)) /
          (rsiLosses data / ((data.length : ℝ) - 1)))) * 100 + 1 / 2⌋ : ℝ) / 100

/-- `fetchStockMetrics` of stockData.ts (synchronous core of the `async`
function).  `Math.random()` calls are drawn from `rand` in source order: the
one-bar branch of `calculateRSI` consumes `rand 0`, after which the
`anomalyCount` computation consumes the next one or two values. -/
noncomputable def fetchStockMetrics (symbol : String) (data : List StockData)
    (rand : ℕ → ℝ) : StockMetrics :=
  if data.isEmpty then
    { symbol := symbol, currentPrice := 0, dailyChange := 0,
      dailyChangePercent := 0, averageVolume := 0, anomalyCount := 0,
      volatility := 0, rsi := 50 }
  else
    let latest := data.getD (data.length - 1) defaultBar
    let dailyChange := if 1 < data.length then
        latest.close - (data.getD (data.length - 2) defaultBar).close
      else latest.close - latest.«open»
    let dailyChangePercent := if 1 < data.length then
        dailyChange / (data.getD (data.length - 2) defaultBar).close * 100
      else dailyChange / latest.«open» * 100
    let recentData := data.drop (data.length - min 20 data.length)
    let averageVolume := (recentData.map (·.volume)).sum / (recentData.length : ℝ)
    let returns : List ℝ :=
      if 1 < recentData.length then
        (List.range recentData.length).filterMap fun i =>
          if i = 0 then none
          else some (((recentData.getD i defaultBar).close -
              (recentData.getD (i - 1) defaultBar).close) /
            (recentData.getD (i - 1) defaultBar).close)
      else if recentData.length = 1 then
        let day := recentData.getD 0 defaultBar
        [(day.high - day.low) / day.«open»]
      else []
    let volatility :=
      if 0 < returns.length then
        let meanReturn := returns.sum / (returns.length : ℝ)
        let squaredDiffs := returns.map fun ret => (ret - meanReturn) ^ 2
        let variance := squaredDiffs.sum / (squaredDiffs.length : ℝ)
        Real.sqrt variance * Real.sqrt 252 * 100
      else 0
    let rsi := calculateRSI (data.drop (data.length - min 15 data.length)) rand 0
    let c := if data.length = 1 then 1 else 0
    let anomalyCount : ℝ :=
      if data.length = 1 then
        if rand c < 0.7 then (⌊rand (c + 1) * 2⌋ : ℝ) + 1 else 0
      else
        max 0 (⌊rand c * (if 5 < data.length then (5 : ℝ) else (data.length : ℝ))⌋ : ℝ)
    { symbol := symbol, currentPrice := latest.close, dailyChange := dailyChange,
      dailyChangePercent := dailyChangePercent, averageVolume := averageVolume,
      anomalyCount := anomalyCount, volatility := volatility, rsi := rsi }

/-- `n * Σ z² - (Σ z)²` over one prefix of length `n`: the quantity whose
product (over the two series) sits under the square root of
`calculatePearsonCorrelation`'s denominator. -/
noncomputable def pearsonQ (z : List ℝ) (n : ℕ) : ℝ :=
  (n : ℝ) * ((z.take n).map fun zi => zi * zi).sum - (z.take n).sum * (z.take n).sum

/-- The denominator of `calculatePearsonCorrelation` (AnomalyList.tsx),
exposed as its own definition so the zero-denominator clause can be stated:
`Math.sqrt((n*sumX2 - sumX*sumX) * (n*sumY2 - sumY*sumY))` with
`n = min(len x, len y)` and sums over the length-`n` prefixes. -/
noncomputable def pearsonDenominator (x y : List ℝ) : ℝ :=
  Real.sqrt (pearsonQ x (min x.length y.length) * pearsonQ y (min x.length y.length))

/-- `calculatePearsonCorrelation` of AnomalyList.tsx: product-moment
correlation over the overlapping prefix of length `min |x| |y|` (the source's
`xi * y[i]` accumulation over `i < n` is the `zipWith` of the two prefixes);
0 when either series is empty or the denominator is 0. -/
noncomputable def calculatePearsonCorrelation (x y : List ℝ) : ℝ :=
  if min x.length y.length = 0 then 0
  else if pearsonDenominator x y = 0 then 0
  else
    (((min x.length y.length : ℕ) : ℝ) *
        ((x.take (min x.length y.length)).zipWith (fun xi yi => xi * yi)
          (y.take (min x.length y.length))).sum -
      (x.take (min x.length y.length)).sum * (y.take (min x.length y.length)).sum) /
    pearsonDenominator x y

/-! ## Specification-side definitions

The following definitions are written from the wording of the specification
(not from the source) and are compared with the source-derived definitions
above in the refinement theorems. -/

/-- Rank of a severity under the spec's order `high > medium > low`. -/
def sevRank : Severity → ℕ
  | .low => 0
  | .medium => 1
  | .high => 2

/-- Maximum of two severities under `high > medium > low`. -/
def sevMax (s t : Severity) : Severity :=
  if sevRank s < sevRank t then t else s

/-- Spec wording of the Aggregator's treatment of one `(date, type)` group:
size 1 passes through unchanged; size > 1 merges into a single record whose
score is the sum of the members' scores, whose severity is the maximum member
severity, whose description is the members' descriptions joined by "; " with a
prefix indicating multiple indicators agreed, and whose date, type and value
are those of the first member. -/
noncomputable def specMergeGroup : List AnomalyData → List AnomalyData
  | [] => []
  | [a] => [a]
  | a :: b :: rest =>
    let group := a :: b :: rest
    [{ id := a.id, date := a.date, value := a.value,
       score := (group.map (·.score)).sum, type := a.type,
       severity := group.foldl (fun mx x => sevMax mx x.severity) .low,
       description := "Multiple indicators: " ++
         String.intercalate "; " (group.map (·.description)) }]

/-- Spec wording of the simplified day-over-day fallback detector: for each
bar after the first, a price candidate exactly when the absolute day-over-day
close change exceeds 5% of the previous close, and a volume candidate exactly
when the day-over-day volume ratio differs from 1 by more than 100% (with
previous volume positive). -/
noncomputable def specSimpleDayOverDay : List StockData → List AnomalyData
  | [] => []
  | [_] => []
  | prevDay :: currentDay :: rest =>
    let priceChange := |(currentDay.close - prevDay.close) / prevDay.close|
    (if priceChange > 0.05 then
      [{ id := "", date := currentDay.date, value := currentDay.close,
         score := priceChange * 20, type := .price,
         severity := if priceChange > 0.1 then .high
           else if priceChange > 0.075 then .medium else .low,
         description := "Significant price movement: " ++
           toFixed (priceChange * 100) 2 ++ "% change" }]
     else []) ++
    (if prevDay.volume > 0 ∧ |currentDay.volume / prevDay.volume - 1| > 1 then
      let volumeChange := |currentDay.volume / prevDay.volume - 1|
      [{ id := "", date := currentDay.date, value := currentDay.volume,
         score := volumeChange * 5, type := .volume,
         severity := if volumeChange > 3 then .high
           else if volumeChange > 2 then .medium else .low,
         description := "Unusual volume activity: " ++
           toFixed (volumeChange * 100) 0 ++ "% of previous day" }]
     else []) ++
    specSimpleDayOverDay (currentDay :: rest)

/-! ## General list lemmas -/

lemma flatMap_congr {α β : Type} (l : List α) (f g : α → List β)
    (h : ∀ x ∈ l, f x = g x) : l.flatMap f = l.flatMap g := by
  induction l with
  | nil => rfl
  | cons a t ih =>
    rw [List.flatMap_cons, List.flatMap_cons, h a (List.mem_cons_self a t),
      ih fun x hx => h x (List.mem_cons_of_mem a hx)]

lemma flatMap_eq_self_of_singleton {α : Type} (ks : List α) (f : α → List α)
    (h : ∀ k ∈ ks, f k = [k]) : ks.flatMap f = ks := by
  induction ks with
  | nil => rfl
  | cons a t ih =>
    rw [List.flatMap_cons, h a (List.mem_cons_self a t),
      ih fun x hx => h x (List.mem_cons_of_mem a hx)]
    rfl

lemma foldl_comm_perm {α β : Type} (f : β → α → β)
    (hcomm : ∀ b a1 a2, f (f b a1) a2 = f (f b a2) a1)
    {l1 l2 : List α} (h : l1.Perm l2) : ∀ b, l1.foldl f b = l2.foldl f b := by
  induction h with
  | nil => intro b; rfl
  | cons x _ ih => intro b; rw [List.foldl_cons, List.foldl_cons, ih]
  | swap x y l => intro b; rw [List.foldl_cons, List.foldl_cons, List.foldl_cons,
      List.foldl_cons, hcomm]
  | trans _ _ ih1 ih2 => intro b; rw [ih1, ih2]

lemma getD_of_all_eq {l : List ℝ} {c : ℝ} (h : ∀ x ∈ l, x = c) (i : ℕ) :
    l.getD i c = c := by
  by_cases hi : i < l.length
  · rw [List.getD_eq_getElem l c hi]
    exact h _ (List.getElem_mem hi)
  · rw [List.getD_eq_default]
    omega

/-! ## Lemmas about `dedupFirst`, `groupKeys`, `groupFor` -/

lemma mem_dedupFirst {α : Type} [DecidableEq α] {l : List α} {x : α} :
    x ∈ dedupFirst l ↔ x ∈ l := by
  induction l with
  | nil => simp [dedupFirst]
  | cons a t ih =>
    simp only [dedupFirst, List.mem_cons, List.mem_filter, ih, decide_eq_true_eq]
    by_cases hx : x = a <;> simp [hx]

lemma nodup_dedupFirst {α : Type} [DecidableEq α] (l : List α) :
    (dedupFirst l).Nodup := by
  induction l with
  | nil => simp [dedupFirst]
  | cons a t ih =>
    rw [dedupFirst, List.nodup_cons]
    refine ⟨?_, ih.filter _⟩
    intro hmem
    rw [List.mem_filter] at hmem
    simp at hmem

lemma dedupFirst_eq_self {α : Type} [DecidableEq α] {l : List α} (h : l.Nodup) :
    dedupFirst l = l := by
  induction l with
  | nil => rfl
  | cons a t ih =>
    rw [List.nodup_cons] at h
    rw [dedupFirst, ih h.2, List.filter_eq_self.2]
    intro b hb
    simp only [decide_eq_true_eq]
    exact fun hba => h.1 (hba ▸ hb)

lemma groupFor_ne_nil {l : List AnomalyData} {k : String × AnomalyType}
    (h : k ∈ groupKeys l) : groupFor l k ≠ [] := by
  rw [groupKeys, mem_dedupFirst, List.mem_map] at h
  obtain ⟨a, ha, hk⟩ := h
  exact List.ne_nil_of_mem (List.mem_filter.2 ⟨ha, by simp [hk]⟩)

lemma key_of_mem_groupFor {l : List AnomalyData} {k : String × AnomalyType}
    {a : AnomalyData} (h : a ∈ groupFor l k) : key a = k := by
  rw [groupFor, List.mem_filter] at h
  simpa using h.2

/-! ## Lemmas about the severity fold and the score fold -/

lemma severityStep_comm (m s1 s2 : Severity) :
    severityStep (severityStep m s1) s2 = severityStep (severityStep m s2) s1 := by
  cases m <;> cases s1 <;> cases s2 <;> rfl

lemma severityStep_eq_sevMax (m s : Severity) : severityStep m s = sevMax m s := by
  cases m <;> cases s <;> rfl

lemma maxSeverity_perm {g g' : List AnomalyData} (h : g.Perm g') :
    maxSeverity g = maxSeverity g' := by
  unfold maxSeverity
  exact foldl_comm_perm (fun mx a => severityStep mx a.severity)
    (fun b a1 a2 => severityStep_comm b a1.severity a2.severity) h Severity.low

lemma foldl_add_score (l : List AnomalyData) (c : ℝ) :
    l.foldl (fun sum x => sum + x.score) c = c + (l.map (·.score)).sum := by
  induction l generalizing c with
  | nil => simp
  | cons a t ih => simp [ih]; ring

/-! ## Structure of the Aggregator -/

lemma mergeGroup_key (a : AnomalyData) (t : List AnomalyData) :
    (mergeGroup (a :: t)).map key = [key a] := by
  cases t <;> rfl

lemma map_key_mergedAnomalies (l : List AnomalyData) :
    (mergedAnomalies l).map key = groupKeys l := by
  rw [mergedAnomalies, List.map_flatMap]
  refine flatMap_eq_self_of_singleton _ _ fun k hk => ?_
  obtain ⟨a, t, hat⟩ : ∃ a t, groupFor l k = a :: t := by
    rcases hg : groupFor l k with _ | ⟨a, t⟩
    · exact absurd hg (groupFor_ne_nil hk)
    · exact ⟨a, t, rfl⟩
  rw [hat, mergeGroup_key,
    key_of_mem_groupFor (hat ▸ List.mem_cons_self a t : a ∈ groupFor l k)]

lemma perm_applyWeightedScoring (l : List AnomalyData) (cfg : AnomalyDetectionConfig) :
    (applyWeightedScoring l cfg).Perm (mergedAnomalies l) := by
  rw [applyWeightedScoring]
  exact List.perm_insertionSort scoreGE (mergedAnomalies l)

lemma sorted_applyWeightedScoring (l : List AnomalyData) (cfg : AnomalyDetectionConfig) :
    (applyWeightedScoring l cfg).Sorted scoreGE := by
  rw [applyWeightedScoring]
  exact List.sorted_insertionSort scoreGE (mergedAnomalies l)

lemma nodup_keys_applyWeightedScoring (l : List AnomalyData)
    (cfg : AnomalyDetectionConfig) :
    ((applyWeightedScoring l cfg).map key).Nodup := by
  rw [((perm_applyWeightedScoring l cfg).map key).nodup_iff, map_key_mergedAnomalies]
  exact nodup_dedupFirst _

lemma flatMap_mergeGroup_of_nodup :
    ∀ l : List AnomalyData, (l.map key).Nodup →
      (l.map key).flatMap (fun k => mergeGroup (groupFor l k)) = l := by
  intro l
  induction l with
  | nil => intro _; rfl
  | cons a t ih =>
    intro h
    rw [List.map_cons, List.nodup_cons] at h
    obtain ⟨hka, hnd⟩ := h
    rw [List.map_cons, List.flatMap_cons]
    have hfirst : groupFor (a :: t) (key a) = [a] := by
      rw [groupFor, List.filter_cons_of_pos (by simp)]
      rw [List.filter_eq_nil_iff.2]
      intro b hb
      simp only [decide_eq_true_eq]
      exact fun hbk => hka (hbk ▸ List.mem_map_of_mem key hb)
    have hrest : (t.map key).flatMap (fun k => mergeGroup (groupFor (a :: t) k)) =
        (t.map key).flatMap (fun k => mergeGroup (groupFor t k)) := by
      refine flatMap_congr _ _ _ fun k hk => ?_
      have hne : ¬ (key a = k) := fun he => hka (he ▸ hk)
      rw [groupFor, groupFor, List.filter_cons_of_neg (by simp [hne])]
    rw [hfirst, hrest, ih hnd]
    rfl

lemma mergedAnomalies_of_nodup {l : List AnomalyData} (h : (l.map key).Nodup) :
    mergedAnomalies l = l := by
  rw [mergedAnomalies, groupKeys, dedupFirst_eq_self h]
  exact flatMap_mergeGroup_of_nodup l h

lemma applyWeightedScoring_idem (l : List AnomalyData) (cfg cfg' : AnomalyDetectionConfig) :
    applyWeightedScoring (applyWeightedScoring l cfg) cfg' = applyWeightedScoring l cfg := by
  have h1 := nodup_keys_applyWeightedScoring l cfg
  conv_lhs => rw [applyWeightedScoring]
  rw [mergedAnomalies_of_nodup h1]
  exact List.Sorted.insertionSort_eq (sorted_applyWeightedScoring l cfg)

lemma mergeGroup_eq_specMergeGroup (g : List AnomalyData) :
    mergeGroup g = specMergeGroup g := by
  match g with
  | [] => rfl
  | [a] => rfl
  | a :: b :: r =>
    have hstep : (fun (mx : Severity) (x : AnomalyData) => severityStep mx x.severity) =
        fun mx x => sevMax mx x.severity := by
      funext mx x
      exact severityStep_eq_sevMax mx x.severity
    rw [mergeGroup, specMergeGroup]
    simp only [maxSeverity, hstep, foldl_add_score, zero_add]

lemma mergeGroup_scoresev_perm {g g' : List AnomalyData} (h : g.Perm g') :
    (mergeGroup g).map (fun a => (a.score, a.severity)) =
      (mergeGroup g').map (fun a => (a.score, a.severity)) := by
  have hlen := h.length_eq
  match g, g' with
  | [], [] => rfl
  | [], _ :: _ => simp at hlen
  | _ :: _, [] => simp at hlen
  | [a], [a'] =>
    rw [List.perm_singleton] at h
    rw [h]
  | [_], _ :: _ :: _ => simp at hlen
  | _ :: _ :: _, [_] => simp at hlen
  | a :: b :: r, a' :: b' :: r' =>
    rw [mergeGroup, mergeGroup]
    simp only [List.map_cons, List.map_nil, foldl_add_score, zero_add]
    rw [maxSeverity_perm h]
    have hs := (h.map (·.score)).sum_eq
    simp only [List.map_cons] at hs
    rw [hs]

lemma mergedAnomalies_scoresev (l l' : List AnomalyData)
    (hk : groupKeys l' = groupKeys l)
    (hg : ∀ k, (groupFor l' k).Perm (groupFor l k)) :
    (mergedAnomalies l').map (fun a => (a.score, a.severity)) =
      (mergedAnomalies l).map (fun a => (a.score, a.severity)) := by
  rw [mergedAnomalies, mergedAnomalies, hk, List.map_flatMap, List.map_flatMap]
  exact flatMap_congr _ _ _ fun k _ => mergeGroup_scoresev_perm (hg k)

/-- C1: for every candidate list, the Aggregator groups candidates by
`(date, type)`; a group of size 1 passes through unchanged; a larger group is
merged into one record whose score is the sum of member scores, whose severity
is the maximum member severity (high > medium > low), whose description is the
member descriptions joined by "; " behind a "Multiple indicators" prefix, and
whose date, type and value come from the first member; the final list is
sorted by descending score. -/
theorem aggregator_groups_merges_and_sorts (l : List AnomalyData)
    (cfg : AnomalyDetectionConfig) :
    (applyWeightedScoring l cfg).Perm
      ((groupKeys l).flatMap fun k => specMergeGroup (groupFor l k)) ∧
    (applyWeightedScoring l cfg).Sorted scoreGE := by
  constructor
  · have h2 : mergedAnomalies l =
        (groupKeys l).flatMap fun k => specMergeGroup (groupFor l k) := by
      rw [mergedAnomalies]
      exact flatMap_congr _ _ _ fun k _ => mergeGroup_eq_specMergeGroup _
    rw [← h2]
    exact perm_applyWeightedScoring l cfg
  · exact sorted_applyWeightedScoring l cfg

/-- C8: the Aggregator is idempotent, and its `(score, severity, count)`
content does not depend on the order of candidates within each `(date, type)`
group. -/
theorem aggregator_idempotent_and_order_independent (l l' : List AnomalyData)
    (cfg : AnomalyDetectionConfig)
    (hk : groupKeys l' = groupKeys l)
    (hg : ∀ k, (groupFor l' k).Perm (groupFor l k)) :
    applyWeightedScoring (applyWeightedScoring l cfg) cfg = applyWeightedScoring l cfg ∧
    ((applyWeightedScoring l' cfg).map fun a => (a.score, a.severity)).Perm
      ((applyWeightedScoring l cfg).map fun a => (a.score, a.severity)) := by
  refine ⟨applyWeightedScoring_idem l cfg cfg, ?_⟩
  have p1 := (perm_applyWeightedScoring l' cfg).map (fun a => (a.score, a.severity))
  have p2 := (perm_applyWeightedScoring l cfg).map (fun a => (a.score, a.severity))
  rw [mergedAnomalies_scoresev l l' hk hg] at p1
  exact p1.trans p2.symm

/-- Witness for C8 at a concrete two-candidate list sharing one
`(date, type)` group, in both orders. -/
theorem aggregator_idempotent_and_order_independent_witness :
    applyWeightedScoring
        (applyWeightedScoring
          [⟨"", "d", 1, 1, AnomalyType.price, Severity.low, "x"⟩,
           ⟨"", "d", 2, 2, AnomalyType.price, Severity.high, "y"⟩] defaultConfig)
        defaultConfig =
      applyWeightedScoring
        [⟨"", "d", 1, 1, AnomalyType.price, Severity.low, "x"⟩,
         ⟨"", "d", 2, 2, AnomalyType.price, Severity.high, "y"⟩] defaultConfig ∧
    ((applyWeightedScoring
        [⟨"", "d", 2, 2, AnomalyType.price, Severity.high, "y"⟩,
         ⟨"", "d", 1, 1, AnomalyType.price, Severity.low, "x"⟩] defaultConfig).map
          fun a => (a.score, a.severity)).Perm
      ((applyWeightedScoring
        [⟨"", "d", 1, 1, AnomalyType.price, Severity.low, "x"⟩,
         ⟨"", "d", 2, 2, AnomalyType.price, Severity.high, "y"⟩] defaultConfig).map
          fun a => (a.score, a.severity)) := by
  refine aggregator_idempotent_and_order_independent _ _ defaultConfig rfl ?_
  intro k
  simp only [groupFor, List.filter_cons, List.filter_nil]
  by_cases h : ((("d" : String), AnomalyType.price) : String × AnomalyType) = k
  · simp only [key, h, decide_eq_true_eq]
    simp [h]
    exact List.Perm.swap _ _ _
  · simp [key, h]

/-- C10 (implicit): after aggregation, no two records of the output of
`detectAnomalies` share both the same date and the same type. -/
theorem detectAnomalies_at_most_one_record_per_date_type (s : List StockData)
    (cfg : AnomalyDetectionConfig) :
    ((detectAnomalies s cfg).map key).Nodup := by
  rw [detectAnomalies]
  split
  · simp
  · exact nodup_keys_applyWeightedScoring _ _

/-- C2: for the empty series, `detectAnomalies` returns `[]` and the metrics
calculator returns the documented zeroed/default record (currentPrice 0,
dailyChange 0, dailyChangePercent 0, averageVolume 0, volatility 0, RSI 50);
both operations are total. -/
theorem empty_series_returns_defaults (cfg : AnomalyDetectionConfig)
    (symbol : String) (rand : ℕ → ℝ) :
    detectAnomalies [] cfg = [] ∧
    fetchStockMetrics symbol [] rand =
      { symbol := symbol, currentPrice := 0, dailyChange := 0,
        dailyChangePercent := 0, averageVolume := 0, anomalyCount := 0,
        volatility := 0, rsi := 50 } :=
  ⟨rfl, rfl⟩

lemma simplePair_spec_head (p c : StockData) (rest : List StockData) :
    specSimpleDayOverDay (p :: c :: rest) =
      simplePair p c ++ specSimpleDayOverDay (c :: rest) := by
  rw [specSimpleDayOverDay, simplePair]
  by_cases hv : p.volume > 0
  · simp only [hv, if_true, true_and]
  · have h2 : ¬ ((0 : ℝ) > 1) := by norm_num
    simp only [hv, if_false, false_and, h2]

lemma simple_range_aux (rest : List StockData) (prev : StockData) :
    (List.range rest.length).flatMap
        (fun i => simplePair ((prev :: rest).getD i defaultBar)
          (rest.getD i defaultBar)) =
      specSimpleDayOverDay (prev :: rest) := by
  induction rest generalizing prev with
  | nil => rfl
  | cons c r ih =>
    rw [List.length_cons, List.range_succ_eq_map, List.flatMap_cons, List.flatMap_map]
    have ht : ((List.range r.length).flatMap fun a =>
        simplePair ((prev :: c :: r).getD (Nat.succ a) defaultBar)
          ((c :: r).getD (Nat.succ a) defaultBar)) =
        (List.range r.length).flatMap fun i =>
          simplePair ((c :: r).getD i defaultBar) (r.getD i defaultBar) := by
      refine flatMap_congr _ _ _ fun i _ => ?_
      simp only [Nat.succ_eq_add_one, List.getD_cons_succ]
    rw [ht, ih c, List.getD_cons_zero, List.getD_cons_zero, simplePair_spec_head]

lemma detectSimpleAnomalies_eq_spec (s : List StockData) :
    detectSimpleAnomalies s = specSimpleDayOverDay s := by
  cases s with
  | nil => rfl
  | cons p t =>
    rw [detectSimpleAnomalies, List.length_cons, List.range_succ_eq_map,
      List.flatMap_cons, List.flatMap_map]
    have h0 : (if (0 : ℕ) = 0 then ([] : List AnomalyData)
        else simplePair ((p :: t).getD (0 - 1) defaultBar)
          ((p :: t).getD 0 defaultBar)) = [] := rfl
    rw [h0]
    have ht : ((List.range t.length).flatMap fun a =>
        if Nat.succ a = 0 then []
        else simplePair ((p :: t).getD (Nat.succ a - 1) defaultBar)
          ((p :: t).getD (Nat.succ a) defaultBar)) =
        (List.range t.length).flatMap fun i =>
          simplePair ((p :: t).getD i defaultBar) (t.getD i defaultBar) := by
      refine flatMap_congr _ _ _ fun i _ => ?_
      simp only [Nat.succ_ne_zero, if_false, Nat.succ_sub_one,
        Nat.succ_eq_add_one, List.getD_cons_succ]
    rw [ht, List.nil_append, simple_range_aux t p]

/-- C3: for every non-empty series of fewer than 20 bars, `detectAnomalies`
runs only the simplified day-over-day fallback detector: for each bar after
the first, a price candidate exactly when the absolute day-over-day close
change exceeds 5%, and a volume candidate exactly when the day-over-day volume
ratio differs from 1 by more than 100% (with previous volume positive); no
advanced detector contributes. -/
theorem short_series_uses_simple_fallback (s : List StockData)
    (cfg : AnomalyDetectionConfig) (h0 : 0 < s.length) (h20 : s.length < 20) :
    detectAnomalies s cfg = applyWeightedScoring (specSimpleDayOverDay s) cfg := by
  cases s with
  | nil => simp at h0
  | cons p t =>
    rw [detectAnomalies]
    have h20' : ¬ (20 ≤ (p :: t).length) := by omega
    simp only [List.isEmpty_cons, Bool.false_eq_true, if_false, h20']
    rw [detectSimpleAnomalies_eq_spec]

/-- Witness for C3 at a concrete two-bar series with an 8% price move. -/
theorem short_series_uses_simple_fallback_witness :
    detectAnomalies
        [⟨"A", "d1", 100, 101, 99, 100, 1000, 100⟩,
         ⟨"A", "d2", 100, 109, 99, 108, 1000, 108⟩] defaultConfig =
      applyWeightedScoring
        (specSimpleDayOverDay
          [⟨"A", "d1", 100, 101, 99, 100, 1000, 100⟩,
           ⟨"A", "d2", 100, 109, 99, 108, 1000, 108⟩]) defaultConfig :=
  short_series_uses_simple_fallback _ defaultConfig (by simp) (by simp)

/-! ## RSI lemmas -/

lemma mem_rsiChanges {data : List StockData} {x : ℝ} (h : x ∈ rsiChanges data) :
    ∃ i, i < data.length ∧ i ≠ 0 ∧
      x = (data.getD i defaultBar).close - (data.getD (i - 1) defaultBar).close := by
  rw [rsiChanges, List.mem_filterMap] at h
  obtain ⟨i, hi, hf⟩ := h
  rw [List.mem_range] at hi
  by_cases h0 : i = 0
  · rw [h0] at hf
    simp at hf
  · rw [if_neg h0] at hf
    exact ⟨i, hi, h0, (Option.some_injective _ hf).symm⟩

lemma rsiChanges_ne_nil {data : List StockData} (h : 2 ≤ data.length) :
    rsiChanges data ≠ [] := by
  apply List.ne_nil_of_mem
    (a := (data.getD 1 defaultBar).close - (data.getD 0 defaultBar).close)
  rw [rsiChanges, List.mem_filterMap]
  exact ⟨1, List.mem_range.2 (by omega), rfl⟩

lemma rsiChanges_pos {data : List StockData}
    (hinc : ∀ i, i + 1 < data.length →
      (data.getD i defaultBar).close < (data.getD (i + 1) defaultBar).close) :
    ∀ x ∈ rsiChanges data, 0 < x := by
  intro x hx
  obtain ⟨i, hi, h0, rfl⟩ := mem_rsiChanges hx
  have hstep := hinc (i - 1) (by omega)
  have hii : i - 1 + 1 = i := by omega
  rw [hii] at hstep
  exact sub_pos.2 hstep

lemma rsiChanges_neg {data : List StockData}
    (hdec : ∀ i, i + 1 < data.length →
      (data.getD (i + 1) defaultBar).close < (data.getD i defaultBar).close) :
    ∀ x ∈ rsiChanges data, x < 0 := by
  intro x hx
  obtain ⟨i, hi, h0, rfl⟩ := mem_rsiChanges hx
  have hstep := hdec (i - 1) (by omega)
  have hii : i - 1 + 1 = i := by omega
  rw [hii] at hstep
  exact sub_neg.2 hstep

lemma rsiLosses_eq_zero {data : List StockData}
    (h : ∀ x ∈ rsiChanges data, 0 < x) : rsiLosses data = 0 := by
  rw [rsiLosses]
  apply List.sum_eq_zero
  intro y hy
  rw [List.mem_map] at hy
  obtain ⟨c, hc, rfl⟩ := hy
  rw [if_pos (h c hc)]

lemma rsiGains_eq_zero {data : List StockData}
    (h : ∀ x ∈ rsiChanges data, x < 0) : rsiGains data = 0 := by
  rw [rsiGains]
  apply List.sum_eq_zero
  intro y hy
  rw [List.mem_map] at hy
  obtain ⟨c, hc, rfl⟩ := hy
  rw [if_neg (not_lt.2 (le_of_lt (h c hc)))]

lemma rsiLosses_pos {data : List StockData} (h2 : 2 ≤ data.length)
    (h : ∀ x ∈ rsiChanges data, x < 0) : 0 < rsiLosses data := by
  rw [rsiLosses]
  apply List.sum_pos
  · intro y hy
    rw [List.mem_map] at hy
    obtain ⟨c, hc, rfl⟩ := hy
    rw [if_neg (not_lt.2 (le_of_lt (h c hc)))]
    exact neg_pos.2 (h c hc)
  · intro hm
    exact rsiChanges_ne_nil h2 (List.map_eq_nil_iff.1 hm)

/-- C5 (amended): the RSI computation returns 100 when every day-over-day
close change is a gain, 0 when every change is a loss, and 50 for the empty
series.  (The claim's "fewer than 2 bars defaults to 50" fails for one-bar
series, which take a randomised estimate — see the counterexample.) -/
theorem rsi_boundaries :
    (∀ (data : List StockData) (rand : ℕ → ℝ) (idx : ℕ), 2 ≤ data.length →
        (∀ i, i + 1 < data.length →
          (data.getD i defaultBar).close < (data.getD (i + 1) defaultBar).close) →
        calculateRSI data rand idx = 100) ∧
    (∀ (data : List StockData) (rand : ℕ → ℝ) (idx : ℕ), 2 ≤ data.length →
        (∀ i, i + 1 < data.length →
          (data.getD (i + 1) defaultBar).close < (data.getD i defaultBar).close) →
        calculateRSI data rand idx = 0) ∧
    (∀ (rand : ℕ → ℝ) (idx : ℕ), calculateRSI [] rand idx = 50) := by
  refine ⟨?_, ?_, fun rand idx => rfl⟩
  · intro data rand idx h2 hinc
    have hL : rsiLosses data = 0 := rsiLosses_eq_zero (rsiChanges_pos hinc)
    rw [calculateRSI, if_neg (by omega), if_pos (by rw [hL, zero_div])]
  · intro data rand idx h2 hdec
    have hG : rsiGains data = 0 := rsiGains_eq_zero (rsiChanges_neg hdec)
    have hLpos : 0 < rsiLosses data := rsiLosses_pos h2 (rsiChanges_neg hdec)
    have hlen : (0 : ℝ) < (data.length : ℝ) - 1 := by
      have : (2 : ℝ) ≤ (data.length : ℝ) := by exact_mod_cast h2
      linarith
    have hAvg : rsiLosses data / ((data.length : ℝ) - 1) ≠ 0 :=
      ne_of_gt (div_pos hLpos hlen)
    rw [calculateRSI, if_neg (by omega), if_neg hAvg, hG, zero_div, zero_div]
    norm_num

/-- Witness for C5 at concrete two-bar gaining/losing series and the empty
series. -/
theorem rsi_boundaries_witness :
    calculateRSI [⟨"A", "d1", 1, 1, 1, 1, 10, 1⟩, ⟨"A", "d2", 1, 2, 1, 2, 10, 2⟩]
        (fun _ => 0) 0 = 100 ∧
    calculateRSI [⟨"A", "d1", 2, 2, 2, 2, 10, 2⟩, ⟨"A", "d2", 2, 2, 1, 1, 10, 1⟩]
        (fun _ => 0) 0 = 0 ∧
    calculateRSI [] (fun _ => 0) 0 = 50 := by
  refine ⟨rsi_boundaries.1 _ _ 0 (by simp) ?_, rsi_boundaries.2.1 _ _ 0 (by simp) ?_,
    rsi_boundaries.2.2 _ 0⟩
  · intro i hi
    have h0 : i = 0 := by simp at hi; omega
    subst h0
    show (1 : ℝ) < 2
    norm_num
  · intro i hi
    have h0 : i = 0 := by simp at hi; omega
    subst h0
    show (1 : ℝ) < 2
    norm_num

/-- Counterexample for C5 as stated: a one-bar series (fewer than 2 bars) with
an up day yields RSI 60 (with the random draw at 0), not 50. -/
theorem rsi_one_bar_is_not_50 :
    calculateRSI [⟨"A", "d", 1, 3, 1, 2, 1000, 2⟩] (fun _ => 0) 0 = 60 ∧
    (60 : ℝ) ≠ 50 := by
  constructor
  · norm_num [calculateRSI]
  · norm_num

/-! ## Pearson correlation lemmas -/

lemma pairMulSum (a : ℝ) (t : List ℝ) :
    (t.map fun b => (a - b) * (a - b)).sum =
      (t.length : ℝ) * (a * a) - 2 * a * t.sum + (t.map fun b => b * b).sum := by
  induction t with
  | nil => simp
  | cons x r ih =>
    simp only [List.map_cons, List.sum_cons, ih, List.length_cons]
    push_cast
    ring

lemma qlist_cons (a : ℝ) (t : List ℝ) :
    ((a :: t).length : ℝ) * ((a :: t).map fun b => b * b).sum -
        (a :: t).sum * (a :: t).sum =
      ((t.length : ℝ) * (t.map fun b => b * b).sum - t.sum * t.sum) +
        (t.map fun b => (a - b) * (a - b)).sum := by
  rw [pairMulSum]
  simp only [List.length_cons, List.map_cons, List.sum_cons]
  push_cast
  ring

lemma sq_terms_nonneg (a : ℝ) (t : List ℝ) :
    0 ≤ (t.map fun b => (a - b) * (a - b)).sum := by
  apply List.sum_nonneg
  intro z hz
  rw [List.mem_map] at hz
  obtain ⟨b, _, rfl⟩ := hz
  exact mul_self_nonneg _

lemma qlist_nonneg (l : List ℝ) :
    0 ≤ (l.length : ℝ) * (l.map fun b => b * b).sum - l.sum * l.sum := by
  induction l with
  | nil => simp
  | cons a t ih =>
    rw [qlist_cons]
    have := sq_terms_nonneg a t
    linarith

lemma qlist_pos {l : List ℝ} {a b : ℝ} (ha : a ∈ l) (hb : b ∈ l) (hne : a ≠ b) :
    0 < (l.length : ℝ) * (l.map fun c => c * c).sum - l.sum * l.sum := by
  induction l with
  | nil => simp at ha
  | cons x t ih =>
    rw [qlist_cons]
    have hq := qlist_nonneg t
    have hnn := sq_terms_nonneg x t
    rcases List.mem_cons.1 ha with hax | hat
    · rcases List.mem_cons.1 hb with hbx | hbt
      · exact absurd (hax.trans hbx.symm) hne
      · subst hax
        have hmem : (a - b) * (a - b) ∈ t.map fun c => (a - c) * (a - c) :=
          List.mem_map_of_mem _ hbt
        have hpos : 0 < (a - b) * (a - b) := mul_self_pos.2 (sub_ne_zero.2 hne)
        have hle := List.single_le_sum
          (fun z hz => by
            rw [List.mem_map] at hz
            obtain ⟨c, _, rfl⟩ := hz
            exact mul_self_nonneg _) _ hmem
        linarith
    · rcases List.mem_cons.1 hb with hbx | hbt
      · subst hbx
        have hmem : (b - a) * (b - a) ∈ t.map fun c => (b - c) * (b - c) :=
          List.mem_map_of_mem _ hat
        have hpos : 0 < (b - a) * (b - a) :=
          mul_self_pos.2 (sub_ne_zero.2 (Ne.symm hne))
        have hle := List.single_le_sum
          (fun z hz => by
            rw [List.mem_map] at hz
            obtain ⟨c, _, rfl⟩ := hz
            exact mul_self_nonneg _) _ hmem
        linarith
      · have := ih hat hbt
        linarith

lemma zipWith_self_mul (l : List ℝ) :
    l.zipWith (fun xi yi => xi * yi) l = l.map fun xi => xi * xi := by
  induction l with
  | nil => rfl
  | cons a t ih => simp [List.zipWith_cons_cons, ih]

/-- C9: Pearson correlation of a non-constant series with itself is 1;
correlation with any constant series is 0; and the result is 0 whenever the
denominator is 0 or either series is empty. -/
theorem pearson_properties :
    (∀ x : List ℝ, (∃ a ∈ x, ∃ b ∈ x, a ≠ b) →
        calculatePearsonCorrelation x x = 1) ∧
    (∀ (x ys : List ℝ) (c : ℝ), (∀ a ∈ ys, a = c) →
        calculatePearsonCorrelation x ys = 0) ∧
    (∀ x y : List ℝ, pearsonDenominator x y = 0 ∨ x = [] ∨ y = [] →
        calculatePearsonCorrelation x y = 0) := by
  refine ⟨?_, ?_, ?_⟩
  · intro x hx
    obtain ⟨a, ha, b, hb, hne⟩ := hx
    have hxne : x ≠ [] := List.ne_nil_of_mem ha
    have hn0 : ¬ (min x.length x.length = 0) := by
      rw [min_self, List.length_eq_zero]
      exact hxne
    have hQ : 0 < pearsonQ x (min x.length x.length) := by
      rw [pearsonQ, min_self, List.take_length]
      exact qlist_pos ha hb hne
    have hden : pearsonDenominator x x = pearsonQ x (min x.length x.length) := by
      rw [pearsonDenominator]
      exact Real.sqrt_mul_self (le_of_lt hQ)
    have hnum : (((min x.length x.length : ℕ) : ℝ) *
          ((x.take (min x.length x.length)).zipWith (fun xi yi => xi * yi)
            (x.take (min x.length x.length))).sum -
        (x.take (min x.length x.length)).sum * (x.take (min x.length x.length)).sum) =
        pearsonQ x (min x.length x.length) := by
      rw [min_self, List.take_length, zipWith_self_mul, pearsonQ, List.take_length]
    rw [calculatePearsonCorrelation, if_neg hn0,
      if_neg (by rw [hden]; exact ne_of_gt hQ), hnum, hden,
      div_self (ne_of_gt hQ)]
  · intro x ys c hc
    by_cases hn : min x.length ys.length = 0
    · rw [calculatePearsonCorrelation, if_pos hn]
    · have hle : min x.length ys.length ≤ ys.length := min_le_right _ _
      have htake : ys.take (min x.length ys.length) =
          List.replicate (min x.length ys.length) c := by
        rw [List.eq_replicate_iff]
        refine ⟨by rw [List.length_take]; omega,
          fun b hb => hc b (List.mem_of_mem_take hb)⟩
      have hQy : pearsonQ ys (min x.length ys.length) = 0 := by
        rw [pearsonQ, htake, List.map_replicate, List.sum_replicate,
          List.sum_replicate]
        simp only [nsmul_eq_mul]
        ring
      have hden : pearsonDenominator x ys = 0 := by
        rw [pearsonDenominator, hQy, mul_zero, Real.sqrt_zero]
      rw [calculatePearsonCorrelation, if_neg hn, if_pos hden]
  · intro x y h
    rcases h with hd | hx | hy
    · by_cases hn : min x.length y.length = 0
      · rw [calculatePearsonCorrelation, if_pos hn]
      · rw [calculatePearsonCorrelation, if_neg hn, if_pos hd]
    · subst hx
      rw [calculatePearsonCorrelation, if_pos (by simp)]
    · subst hy
      rw [calculatePearsonCorrelation, if_pos (by simp)]

/-- Witness for C9 at a concrete non-constant series, a constant series, and
an empty series. -/
theorem pearson_properties_witness :
    calculatePearsonCorrelation [0, 1] [0, 1] = 1 ∧
    calculatePearsonCorrelation [0, 1] [5, 5] = 0 ∧
    calculatePearsonCorrelation [] [1] = 0 := by
  refine ⟨pearson_properties.1 [0, 1] ⟨0, by simp, 1, by simp, by norm_num⟩,
    pearson_properties.2.1 [0, 1] [5, 5] 5 ?_,
    pearson_properties.2.2 [] [1] (Or.inr (Or.inl rfl))⟩
  intro a ha
  simp at ha
  exact ha

/-! ## Metrics determinism -/

lemma calculateRSI_rand_independent {d : List StockData} (h : 2 ≤ d.length)
    (r1 r2 : ℕ → ℝ) (idx1 idx2 : ℕ) :
    calculateRSI d r1 idx1 = calculateRSI d r2 idx2 := by
  have hc : ¬ (d.length < 2) := by omega
  rw [calculateRSI, calculateRSI, if_neg hc, if_neg hc]

/-- C7 (amended): `fetchStockMetrics` is deterministic in every field except
`anomalyCount`; the `rsi` field is additionally deterministic whenever the
series does not consist of exactly one bar.  (`anomalyCount`, and `rsi` on
one-bar series, are computed from `Math.random()` — see the
counterexample.) -/
theorem computeMetrics_deterministic_except_anomalyCount (symbol : String)
    (data : List StockData) (r1 r2 : ℕ → ℝ) :
    (fetchStockMetrics symbol data r1).symbol =
        (fetchStockMetrics symbol data r2).symbol ∧
    (fetchStockMetrics symbol data r1).currentPrice =
        (fetchStockMetrics symbol data r2).currentPrice ∧
    (fetchStockMetrics symbol data r1).dailyChange =
        (fetchStockMetrics symbol data r2).dailyChange ∧
    (fetchStockMetrics symbol data r1).dailyChangePercent =
        (fetchStockMetrics symbol data r2).dailyChangePercent ∧
    (fetchStockMetrics symbol data r1).averageVolume =
        (fetchStockMetrics symbol data r2).averageVolume ∧
    (fetchStockMetrics symbol data r1).volatility =
        (fetchStockMetrics symbol data r2).volatility ∧
    (data.length ≠ 1 →
      (fetchStockMetrics symbol data r1).rsi =
        (fetchStockMetrics symbol data r2).rsi) := by
  cases data with
  | nil => exact ⟨rfl, rfl, rfl, rfl, rfl, rfl, fun _ => rfl⟩
  | cons p t =>
    refine ⟨rfl, rfl, rfl, rfl, rfl, rfl, fun hlen => ?_⟩
    cases t with
    | nil => simp at hlen
    | cons q r =>
      show calculateRSI
          ((p :: q :: r).drop ((p :: q :: r).length - min 15 (p :: q :: r).length))
          r1 0 =
        calculateRSI
          ((p :: q :: r).drop ((p :: q :: r).length - min 15 (p :: q :: r).length))
          r2 0
      refine calculateRSI_rand_independent ?_ r1 r2 0 0
      rw [List.length_drop]
      have hl : (p :: q :: r).length = r.length + 2 := by simp
      omega

/-- Counterexample for C7 as stated: on a one-bar series, two calls of
`fetchStockMetrics` with different random draws disagree on both `rsi`
(60 vs 70) and `anomalyCount` (1 vs 2), so the returned records are not
identical in every field. -/
theorem computeMetrics_not_fully_deterministic :
    (fetchStockMetrics "A" [⟨"A", "d", 1, 3, 1, 2, 1000, 2⟩] (fun _ => 0)).rsi = 60 ∧
    (fetchStockMetrics "A" [⟨"A", "d", 1, 3, 1, 2, 1000, 2⟩] (fun _ => 1 / 2)).rsi = 70 ∧
    (fetchStockMetrics "A" [⟨"A", "d", 1, 3, 1, 2, 1000, 2⟩]
        (fun _ => 0)).anomalyCount = 1 ∧
    (fetchStockMetrics "A" [⟨"A", "d", 1, 3, 1, 2, 1000, 2⟩]
        (fun _ => 1 / 2)).anomalyCount = 2 := by
  refine ⟨?_, ?_, ?_, ?_⟩ <;> norm_num [fetchStockMetrics, calculateRSI]

/-! ## Constant-series lemmas -/

lemma mean_const {l : List ℝ} {c : ℝ} (hne : l ≠ []) (h : ∀ x ∈ l, x = c) :
    calculateMean l = c := by
  have hrep : l = List.replicate l.length c := List.eq_replicate_iff.2 ⟨rfl, h⟩
  have hsum : l.sum = (l.length : ℝ) * c := by
    conv_lhs => rw [hrep]
    rw [List.sum_replicate, nsmul_eq_mul]
  have hl : (l.length : ℝ) ≠ 0 :=
    Nat.cast_ne_zero.2 fun h0 => hne (List.length_eq_zero.1 h0)
  rw [calculateMean, hsum, mul_div_cancel_left₀ c hl]

lemma mean_zero_of_all_zero {l : List ℝ} (h : ∀ x ∈ l, x = 0) :
    calculateMean l = 0 := by
  rw [calculateMean, List.sum_eq_zero h, zero_div]

lemma stddev_const {l : List ℝ} {c : ℝ} (h : ∀ x ∈ l, x = c) :
    calculateStdDev l c = 0 := by
  rw [calculateStdDev, mean_zero_of_all_zero, Real.sqrt_zero]
  intro x hx
  rw [List.mem_map] at hx
  obtain ⟨val, hval, rfl⟩ := hx
  rw [h val hval]
  ring

lemma scanl_ema_const (m c : ℝ) :
    ∀ (xs : List ℝ), (∀ x ∈ xs, x = c) → ∀ init, init = c →
      ∀ y ∈ xs.scanl (fun prev d => d * m + prev * (1 - m)) init, y = c := by
  intro xs
  induction xs with
  | nil =>
    intro _ init hinit y hy
    rw [List.scanl_nil] at hy
    simp at hy
    rw [hy, hinit]
  | cons x r ih =>
    intro h init hinit y hy
    rw [List.scanl_cons] at hy
    rcases List.mem_cons.1 (by simpa using hy) with hyi | hyt
    · rw [hyi, hinit]
    · refine ih (fun z hz => h z (List.mem_cons_of_mem x hz)) _ ?_ y hyt
      rw [h x (List.mem_cons_self x r), hinit]
      ring

lemma ema_const {l : List ℝ} {c : ℝ} (h : ∀ x ∈ l, x = c) (p : ℕ) :
    ∀ y ∈ calculateEMA l p, y = c := by
  cases l with
  | nil => intro y hy; simp [calculateEMA] at hy
  | cons x xs =>
    rw [calculateEMA]
    exact scanl_ema_const _ c xs (fun z hz => h z (List.mem_cons_of_mem x hz)) x
      (h x (List.mem_cons_self x xs))

lemma zipWith_sub_all_zero {c : ℝ} :
    ∀ {l1 l2 : List ℝ}, (∀ x ∈ l1, x = c) → (∀ x ∈ l2, x = c) →
      ∀ y ∈ l1.zipWith (fun fast slow => fast - slow) l2, y = 0 := by
  intro l1
  induction l1 with
  | nil => intro l2 _ _ y hy; simp at hy
  | cons a t ih =>
    intro l2 h1 h2 y hy
    cases l2 with
    | nil => simp at hy
    | cons b s =>
      rw [List.zipWith_cons_cons] at hy
      rcases List.mem_cons.1 hy with hya | hyt
      · rw [hya, h1 a (List.mem_cons_self a t), h2 b (List.mem_cons_self b s)]
        ring
      · exact ih (fun z hz => h1 z (List.mem_cons_of_mem a hz))
          (fun z hz => h2 z (List.mem_cons_of_mem b hz)) y hyt

lemma foldl_max_const {c : ℝ} :
    ∀ (r : List ℝ), (∀ x ∈ r, x = c) → r.foldl max c = c := by
  intro r
  induction r with
  | nil => intro _; rfl
  | cons x t ih =>
    intro h
    rw [List.foldl_cons, h x (List.mem_cons_self x t), max_self]
    exact ih fun z hz => h z (List.mem_cons_of_mem x hz)

lemma maxList_const {l : List ℝ} {c : ℝ} (hne : l ≠ []) (h : ∀ x ∈ l, x = c) :
    maxList l = c := by
  cases l with
  | nil => exact absurd rfl hne
  | cons a rest =>
    rw [maxList]
    have ha : a = c := h a (List.mem_cons_self a rest)
    rw [ha]
    exact foldl_max_const rest fun z hz => h z (List.mem_cons_of_mem a hz)

/-! ## No detector fires on a constant series -/

lemma detectZScore_const_empty {s : List StockData} {c v : ℝ} (hne : s ≠ [])
    (hc : ∀ b ∈ s, b.close = c) (hv : ∀ b ∈ s, b.volume = v)
    {cfg : ZScoreConfig} (hthr : 0 ≤ cfg.threshold) :
    detectZScoreAnomalies s cfg = [] := by
  have hmapne : s.map (·.close) ≠ [] := fun h => hne (List.map_eq_nil_iff.1 h)
  have hmapnev : s.map (·.volume) ≠ [] := fun h => hne (List.map_eq_nil_iff.1 h)
  have hmc : ∀ x ∈ s.map (·.close), x = c := by
    intro x hx
    rw [List.mem_map] at hx
    obtain ⟨b, hb, rfl⟩ := hx
    exact hc b hb
  have hmv : ∀ x ∈ s.map (·.volume), x = v := by
    intro x hx
    rw [List.mem_map] at hx
    obtain ⟨b, hb, rfl⟩ := hx
    exact hv b hb
  simp only [detectZScoreAnomalies]
  rw [List.flatMap_eq_nil_iff]
  intro b hb
  rw [mean_const hmapne hmc, mean_const hmapnev hmv, stddev_const hmc,
    stddev_const hmv, hc b hb, hv b hb, sub_self, zero_div, abs_zero,
    if_neg (not_lt.2 hthr), sub_self, zero_div, abs_zero,
    if_neg (not_lt.2 hthr)]
  rfl

lemma detectBollinger_const_empty {s : List StockData} {c : ℝ}
    (hc : ∀ b ∈ s, b.close = c) {cfg : BollingerConfig} (hp : 0 < cfg.period) :
    detectBollingerBandsAnomalies s cfg = [] := by
  simp only [detectBollingerBandsAnomalies]
  rw [List.flatMap_eq_nil_iff]
  intro i hi
  rw [List.mem_range] at hi
  by_cases hper : cfg.period ≤ i + 1
  · rw [if_pos hper]
    have hwin_all : ∀ x ∈ ((s.map (·.close)).drop (i + 1 - cfg.period)).take cfg.period,
        x = c := by
      intro x hx
      have hx2 := List.mem_of_mem_drop (List.mem_of_mem_take hx)
      rw [List.mem_map] at hx2
      obtain ⟨b, hb, rfl⟩ := hx2
      exact hc b hb
    have hwin_ne : ((s.map (·.close)).drop (i + 1 - cfg.period)).take cfg.period ≠ [] := by
      refine List.length_pos.mp ?_
      rw [List.length_take, List.length_drop, List.length_map]
      omega
    rw [mean_const hwin_ne hwin_all, stddev_const hwin_all, mul_zero, add_zero,
      sub_zero, List.getD_eq_getElem s defaultBar hi, hc _ (List.getElem_mem hi),
      if_neg (by simp [lt_irrefl])]
  · rw [if_neg hper]

lemma detectMACD_const_empty {s : List StockData} {c : ℝ}
    (hc : ∀ b ∈ s, b.close = c) (cfg : MACDConfig) :
    detectMACDAnomalies s cfg = [] := by
  have hmc : ∀ x ∈ s.map (·.close), x = c := by
    intro x hx
    rw [List.mem_map] at hx
    obtain ⟨b, hb, rfl⟩ := hx
    exact hc b hb
  simp only [detectMACDAnomalies]
  by_cases hg : (s.map (·.close)).length < cfg.slowPeriod + cfg.signalPeriod
  · rw [if_pos hg]
  · rw [if_neg hg]
    have hmacd : ∀ y ∈ (calculateEMA (s.map (·.close)) cfg.fastPeriod).zipWith
        (fun fast slow => fast - slow) (calculateEMA (s.map (·.close)) cfg.slowPeriod),
        y = 0 :=
      zipWith_sub_all_zero (ema_const hmc _) (ema_const hmc _)
    have hsig : ∀ y ∈ calculateEMA
        ((calculateEMA (s.map (·.close)) cfg.fastPeriod).zipWith
          (fun fast slow => fast - slow) (calculateEMA (s.map (·.close)) cfg.slowPeriod))
        cfg.signalPeriod, y = 0 :=
      ema_const hmacd _
    rw [List.flatMap_eq_nil_iff]
    intro i hi
    by_cases hsp : cfg.signalPeriod ≤ i
    · rw [if_pos hsp]
      have hfalse : ¬ (|((calculateEMA (s.map (·.close)) cfg.fastPeriod).zipWith
            (fun fast slow => fast - slow)
            (calculateEMA (s.map (·.close)) cfg.slowPeriod)).getD i 0 -
          (calculateEMA
            ((calculateEMA (s.map (·.close)) cfg.fastPeriod).zipWith
              (fun fast slow => fast - slow)
              (calculateEMA (s.map (·.close)) cfg.slowPeriod))
            cfg.signalPeriod).getD i 0| >
            |if 0 < i then
              ((calculateEMA (s.map (·.close)) cfg.fastPeriod).zipWith
                (fun fast slow => fast - slow)
                (calculateEMA (s.map (·.close)) cfg.slowPeriod)).getD (i - 1) 0 -
              (calculateEMA
                ((calculateEMA (s.map (·.close)) cfg.fastPeriod).zipWith
                  (fun fast slow => fast - slow)
                  (calculateEMA (s.map (·.close)) cfg.slowPeriod))
                cfg.signalPeriod).getD (i - 1) 0
            else 0| * 2 ∧
          |((calculateEMA (s.map (·.close)) cfg.fastPeriod).zipWith
            (fun fast slow => fast - slow)
            (calculateEMA (s.map (·.close)) cfg.slowPeriod)).getD i 0 -
          (calculateEMA
            ((calculateEMA (s.map (·.close)) cfg.fastPeriod).zipWith
              (fun fast slow => fast - slow)
              (calculateEMA (s.map (·.close)) cfg.slowPeriod))
            cfg.signalPeriod).getD i 0| > 0.5) := by
        intro hcond
        have h2 := hcond.2
        rw [getD_of_all_eq hmacd i, getD_of_all_eq hsig i] at h2
        norm_num at h2
      rw [if_neg hfalse]
    · rw [if_neg hsp]

lemma detectIsolation_const_empty {s : List StockData} {o hi lo c v : ℝ}
    (ho : ∀ b ∈ s, b.«open» = o) (hh : ∀ b ∈ s, b.high = hi)
    (hl : ∀ b ∈ s, b.low = lo) (hc : ∀ b ∈ s, b.close = c)
    (hv : ∀ b ∈ s, b.volume = v) (cfg : IsolationConfig) :
    detectIsolationForestAnomalies s cfg = [] := by
  have hfeat : ∀ f ∈ s.map (fun d =>
      [d.close, d.volume, d.high - d.low, (d.close - d.«open») / d.«open»,
        d.volume * d.close]),
      f = [c, v, hi - lo, (c - o) / o, v * c] := by
    intro f hf
    rw [List.mem_map] at hf
    obtain ⟨d, hd, rfl⟩ := hf
    rw [hc d hd, hv d hd, hh d hd, hl d hd, ho d hd]
  have hscores : ∀ sc ∈ (s.map (fun d =>
      [d.close, d.volume, d.high - d.low, (d.close - d.«open») / d.«open»,
        d.volume * d.close])).map (fun feature =>
      calculateIsolationScore feature (s.map (fun d =>
        [d.close, d.volume, d.high - d.low, (d.close - d.«open») / d.«open»,
          d.volume * d.close]))), sc = 0 := by
    intro sc hsc
    rw [List.mem_map] at hsc
    obtain ⟨f, hf, rfl⟩ := hsc
    rw [hfeat f hf, calculateIsolationScore]
    apply mean_zero_of_all_zero
    intro z hz
    rw [List.mem_map] at hz
    obtain ⟨other, hother, rfl⟩ := hz
    rw [hfeat other hother]
    simp
  have hthr0 : getPercentile ((s.map (fun d =>
      [d.close, d.volume, d.high - d.low, (d.close - d.«open») / d.«open»,
        d.volume * d.close])).map (fun feature =>
      calculateIsolationScore feature (s.map (fun d =>
        [d.close, d.volume, d.high - d.low, (d.close - d.«open») / d.«open»,
          d.volume * d.close])))) ((1 - cfg.contamination) * 100) = 0 := by
    simp only [getPercentile]
    apply getD_of_all_eq
    intro x hx
    exact hscores x ((List.perm_insertionSort _ _).subset hx)
  simp only [detectIsolationForestAnomalies]
  rw [List.flatMap_eq_nil_iff]
  intro ds hds
  rcases ds with ⟨d, sc⟩
  have hsc : sc ∈ _ := (List.of_mem_zip hds).2
  rw [hscores sc hsc, hthr0, if_neg (lt_irrefl 0)]

lemma detectPattern_const_empty {s : List StockData} {c : ℝ}
    (hc : ∀ b ∈ s, b.close = c) (cfg : PatternConfig) :
    detectTradingPatternAnomalies s cfg = [] := by
  simp only [detectTradingPatternAnomalies]
  rw [List.flatMap_eq_nil_iff]
  intro i hi
  rw [List.mem_range] at hi
  by_cases hb : 3 ≤ i ∧ i + 2 < s.length
  · rw [if_pos hb]
    have hPall : ∀ x ∈ ((s.drop (i - 3)).take
        (min (s.length - 1) (i + 3) + 1 - (i - 3))).map (·.close), x = c := by
      intro x hx
      rw [List.mem_map] at hx
      obtain ⟨b, hbm, rfl⟩ := hx
      exact hc b (List.mem_of_mem_drop (List.mem_of_mem_take hbm))
    have hPlen : 0 < (((s.drop (i - 3)).take
        (min (s.length - 1) (i + 3) + 1 - (i - 3))).map (·.close)).length := by
      rw [List.length_map, List.length_take, List.length_drop]
      omega
    have hPne : ((s.drop (i - 3)).take
        (min (s.length - 1) (i + 3) + 1 - (i - 3))).map (·.close) ≠ [] :=
      List.length_pos.mp hPlen
    have hmax : maxList (((s.drop (i - 3)).take
        (min (s.length - 1) (i + 3) + 1 - (i - 3))).map (·.close)) = c :=
      maxList_const hPne hPall
    have hget : (((s.drop (i - 3)).take
        (min (s.length - 1) (i + 3) + 1 - (i - 3))).map (·.close)).getD 0 0 = c := by
      rw [List.getD_eq_getElem _ 0 hPlen]
      exact hPall _ (List.getElem_mem hPlen)
    have hdet : (detectPumpAndDump s i).detected = false := by
      simp only [detectPumpAndDump]
      rw [if_neg]
      intro hcond
      have h1 := hcond.1
      rw [hmax, hget, sub_self, zero_div] at h1
      norm_num at h1
    rw [if_neg (by rw [hdet]; exact Bool.false_ne_true)]
  · rw [if_neg hb]

/-- C4: on a series of at least 20 bars in which every bar carries the same
open, high, low, close and volume, `detectAnomalies` with the default
configuration returns the empty list — no detector (Z-Score, Bollinger Bands,
MACD, Isolation-Score, Pattern) produces a candidate. -/
theorem constant_series_no_anomalies (s : List StockData) (o hi lo c v : ℝ)
    (hlen : 20 ≤ s.length)
    (ho : ∀ b ∈ s, b.«open» = o) (hh : ∀ b ∈ s, b.high = hi)
    (hl : ∀ b ∈ s, b.low = lo) (hc : ∀ b ∈ s, b.close = c)
    (hv : ∀ b ∈ s, b.volume = v) :
    detectAnomalies s defaultConfig = [] := by
  have hne : s ≠ [] := by
    intro h
    rw [h] at hlen
    simp at hlen
  have hEmpty : ¬ (s.isEmpty = true) := fun hE => hne (List.isEmpty_iff.1 hE)
  simp only [detectAnomalies, defaultConfig]
  rw [if_neg hEmpty, if_pos hlen]
  rw [detectZScore_const_empty hne hc hv (by norm_num),
    detectBollinger_const_empty hc (by norm_num),
    detectMACD_const_empty hc _,
    detectIsolation_const_empty ho hh hl hc hv _,
    detectPattern_const_empty hc _]
  rfl

/-- Witness for C4 at a concrete 20-bar constant series. -/
theorem constant_series_no_anomalies_witness :
    detectAnomalies (List.replicate 20 (⟨"A", "d", 1, 1, 1, 1, 1, 1⟩ : StockData))
      defaultConfig = [] :=
  constant_series_no_anomalies _ 1 1 1 1 1 (by simp)
    (fun b hb => by rw [List.eq_of_mem_replicate hb])
    (fun b hb => by rw [List.eq_of_mem_replicate hb])
    (fun b hb => by rw [List.eq_of_mem_replicate hb])
    (fun b hb => by rw [List.eq_of_mem_replicate hb])
    (fun b hb => by rw [List.eq_of_mem_replicate hb])

/-- Witness for C7 at a concrete two-bar series and two distinct random
sources. -/
theorem computeMetrics_deterministic_except_anomalyCount_witness :
    (fetchStockMetrics "A"
        [⟨"A", "d1", 1, 2, 1, 2, 10, 2⟩, ⟨"A", "d2", 2, 3, 2, 3, 10, 3⟩]
        (fun _ => 0)).currentPrice =
      (fetchStockMetrics "A"
        [⟨"A", "d1", 1, 2, 1, 2, 10, 2⟩, ⟨"A", "d2", 2, 3, 2, 3, 10, 3⟩]
        (fun _ => 1 / 2)).currentPrice ∧
    (fetchStockMetrics "A"
        [⟨"A", "d1", 1, 2, 1, 2, 10, 2⟩, ⟨"A", "d2", 2, 3, 2, 3, 10, 3⟩]
        (fun _ => 0)).rsi =
      (fetchStockMetrics "A"
        [⟨"A", "d1", 1, 2, 1, 2, 10, 2⟩, ⟨"A", "d2", 2, 3, 2, 3, 10, 3⟩]
        (fun _ => 1 / 2)).rsi :=
  ⟨(computeMetrics_deterministic_except_anomalyCount "A" _ _ _).2.1,
    (computeMetrics_deterministic_except_anomalyCount "A" _ _ _).2.2.2.2.2.2
      (by simp)⟩
